import Mathlib

set_option maxRecDepth 2000

/-!
Verification of the AirVision data cleaning and analysis pipeline
(`data_processing.py` and `analysis.py`).

Tables are modelled column-wise: a `Column` is a name together with its
cells, and a `Table` is a list of columns.  An absent cell (`NaN` in the
source) is `none`; numeric cells are rationals.  Each pandas operation used
by the source is translated operation by operation, including pandas'
treatment of absent values (aggregations skip `NaN`; assigning a series to a
frame whose index is empty re-indexes the frame to the series' index,
filling previously assigned columns with `NaN`; assigning a scalar to a
frame broadcasts it over the frame's current index).
-/

namespace AirVision

/-- The typed contents of one column.  `numeric` columns hold float cells,
`text` columns hold string cells (`Date`, `Time`, `Day`, `Month`),
`datetime` columns hold timestamps (opaque to every stage modelled here, so
represented by the same cell type as numeric columns), and `categorical`
columns are pandas `Categorical` columns with their ordered category list. -/
inductive ColData where
  | numeric (xs : List (Option ℚ))
  | text (xs : List (Option String))
  | datetime (xs : List (Option ℚ))
  | categorical (xs : List (Option String)) (order : List String)
  deriving DecidableEq

/-- A named column of a data frame. -/
structure Column where
  name : String
  data : ColData
  deriving DecidableEq

/-- A data frame, as its list of columns (pandas column order). -/
abbrev Table := List Column

/-- Number of cells of a column. -/
def colLength : ColData → Nat
  | .numeric xs => xs.length
  | .text xs => xs.length
  | .datetime xs => xs.length
  | .categorical xs _ => xs.length

/-- The column labels of a table (`df.columns`). -/
def names (df : Table) : List String := df.map Column.name

/-- Column lookup (`df[s]`), first match. -/
def getCol? (df : Table) (s : String) : Option Column :=
  df.find? (fun c => c.name = s)

/-- The numeric cells of column `s`; `[]` if `s` is missing or non-numeric
(the stages modelled here only read numeric cells of columns that the
surrounding code guarantees to be numeric float columns). -/
def getNumeric (df : Table) (s : String) : List (Option ℚ) :=
  match getCol? df s with
  | some c =>
    match c.data with
    | .numeric xs => xs
    | _ => []
  | none => []

/-- Column assignment `df[s] = d`: replace the column in place if the label
exists, otherwise append a new column at the end. -/
def setCol (df : Table) (s : String) (d : ColData) : Table :=
  if s ∈ names df then
    df.map (fun c => if c.name = s then { c with data := d } else c)
  else df ++ [⟨s, d⟩]

/-- Number of rows of a table (pandas frames have columns of equal length;
theorems about ragged corner cases carry explicit length hypotheses). -/
def nRows (df : Table) : Nat :=
  match df with
  | [] => 0
  | c :: _ => colLength c.data

/-! ### Loader/Normalizer (`data_processing.load_and_clean_data`)

Reading and parsing the CSV file is I/O and is not part of the shallow
embedding; `load_and_clean_data` is modelled on the already parsed raw
table, covering the header clean-up and the sentinel replacement
(`data_processing.py` lines 20-28). -/

/-- `df.columns.str.rstrip(';')`: drop trailing semicolons of one label. -/
def rstripSemi (s : String) : String :=
  String.mk ((s.data.reverse.dropWhile (fun ch => ch = ';')).reverse)

/-- `df[col].replace(-200, np.nan)` on a float column. -/
def replaceSentinel (xs : List (Option ℚ)) : List (Option ℚ) :=
  xs.map (fun c => if c = some (-200) then none else c)

/-- The sentinel replacement applied to one column: columns named `Date` or
`Time` are skipped, numeric columns get `replace(-200, np.nan)`, and
`replace(-200, ...)` on a string-typed column matches no cell, leaving it
unchanged. -/
def cleanColumn (c : Column) : Column :=
  if c.name = "Date" ∨ c.name = "Time" then c
  else
    match c.data with
    | .numeric xs => { c with data := .numeric (replaceSentinel xs) }
    | _ => c

/-- `load_and_clean_data`, from the parsed raw table: strip trailing `;`
from labels, drop `Unnamed` placeholder columns, and replace the sentinel
`-200` by the absent marker in every column except `Date` and `Time`. -/
def load_and_clean_data (raw : Table) : Table :=
  ((raw.map (fun c => { c with name := rstripSemi c.name })).filter
    (fun c => !(c.name.startsWith "Unnamed"))).map cleanColumn

/-! ### Imputer (`data_processing.handle_missing_values`)

`Series.interpolate(method='linear', limit_direction='both')` fills every
absent cell as soon as the column has one present cell: an interior gap is
filled by the straight line through the nearest present neighbours, and a
leading (trailing) run of absent cells is filled with the first (last)
present value, which is `np.interp`'s constant extrapolation. -/

/-- The nearest present cell strictly before index `i`, with its index. -/
def prevValid (xs : List (Option ℚ)) (i : Nat) : Option (Nat × ℚ) :=
  ((List.range i).filterMap (fun j =>
    match xs.get? j with
    | some (some v) => some (j, v)
    | _ => none)).getLast?

/-- The nearest present cell strictly after index `i`, with its index. -/
def nextValid (xs : List (Option ℚ)) (i : Nat) : Option (Nat × ℚ) :=
  (((List.range xs.length).drop (i + 1)).filterMap (fun j =>
    match xs.get? j with
    | some (some v) => some (j, v)
    | _ => none)).head?

/-- `interpolate(method='linear', limit_direction='both')`. -/
def interpolateLinearBoth (xs : List (Option ℚ)) : List (Option ℚ) :=
  (List.range xs.length).map (fun i =>
    match xs.get? i with
    | some (some v) => some v
    | _ =>
      match prevValid xs i, nextValid xs i with
      | some (j, vj), some (k, vk) =>
        some (vj + (vk - vj) * ((i : ℚ) - (j : ℚ)) / ((k : ℚ) - (j : ℚ)))
      | some (_, vj), none => some vj
      | none, some (_, vk) => some vk
      | none, none => none)

/-- Helper for forward fill: carry the last present value. -/
def ffillAux : Option ℚ → List (Option ℚ) → List (Option ℚ)
  | _, [] => []
  | _, some v :: rest => some v :: ffillAux (some v) rest
  | last, none :: rest => last :: ffillAux last rest

/-- `fillna(method='ffill')`. -/
def ffill (xs : List (Option ℚ)) : List (Option ℚ) := ffillAux none xs

/-- `fillna(method='bfill')`. -/
def bfill (xs : List (Option ℚ)) : List (Option ℚ) :=
  (ffillAux none xs.reverse).reverse

/-- `Series.mean()`: mean of the present cells, absent when there are none. -/
def colMean (xs : List (Option ℚ)) : Option ℚ :=
  let vs := xs.filterMap id
  if vs.length = 0 then none else some (vs.sum / (vs.length : ℚ))

/-- `fillna(scalar)`, where the scalar may itself be absent
(`fillna(np.nan)` is a no-op). -/
def fillnaWith (m : Option ℚ) (xs : List (Option ℚ)) : List (Option ℚ) :=
  xs.map (fun c =>
    match c with
    | some v => some v
    | none => m)

/-- The per-column chain of `handle_missing_values`: interpolation in both
directions, forward fill, backward fill, then mean fill. -/
def imputeColumn (xs : List (Option ℚ)) : List (Option ℚ) :=
  let s1 := interpolateLinearBoth xs
  let s2 := ffill s1
  let s3 := bfill s2
  fillnaWith (colMean s3) s3

/-- `handle_missing_values`: apply the imputation chain to every column
except `Date` and `Time`.  At this point of the pipeline every column other
than `Date`/`Time` is a float column; the chain is therefore modelled on
numeric columns (on an object column pandas' interpolation would fail, a
case the pipeline never produces). -/
def imputeColIfNeeded (c : Column) : Column :=
  if c.name = "Date" ∨ c.name = "Time" then c
  else
    match c.data with
    | .numeric xs => { c with data := .numeric (imputeColumn xs) }
    | _ => c

def handle_missing_values (df : Table) : Table := df.map imputeColIfNeeded

/-! ### Analysis stage errors

`calculate_aqi` and `perform_time_analysis` raise `ValueError` for their
documented precondition failures (the spec's `ConfigurationError` and
`MissingFieldError`); accessing a missing column label raises `KeyError`. -/

/-- A Python exception escaping an analysis stage. -/
inductive AnalysisError where
  | keyError (k : String)
  | valueError (msg : String)
  deriving DecidableEq

/-! ### Composite Index Calculator (`analysis.calculate_aqi`) -/

/-- `Series.max()`: greatest present cell, absent when all cells are. -/
def colMax (xs : List (Option ℚ)) : Option ℚ :=
  match xs.filterMap id with
  | [] => none
  | v :: vs => some (vs.foldl max v)

/-- `Series.min()`: least present cell, absent when all cells are. -/
def colMin (xs : List (Option ℚ)) : Option ℚ :=
  match xs.filterMap id with
  | [] => none
  | v :: vs => some (vs.foldl min v)

/-- Whether `max_val > min_val` holds for a column, i.e. whether the code
takes the series branch of the normalization (a `NaN` aggregate makes the
comparison false, matching float semantics where `none` compares false). -/
def varies (xs : List (Option ℚ)) : Bool :=
  match colMax xs, colMin xs with
  | some M, some m => decide (M > m)
  | _, _ => false

/-- `100 * (x - min) / (max - min)` applied cell-wise, keeping absent cells
absent. -/
def normSeries (M m : ℚ) (xs : List (Option ℚ)) : List (Option ℚ) :=
  xs.map (Option.map (fun v => 100 * (v - m) / (M - m)))

/-- The `normalized` frame being built column by column.  `idx` models the
frame's index: `none` while the index is still the initial empty
`RangeIndex` of `pd.DataFrame()`, `some n` once a series assignment has
established a `RangeIndex` of length `n`. -/
structure NormFrame where
  idx : Option Nat
  cols : List (String × List (Option ℚ))
  deriving DecidableEq

/-- `pd.DataFrame()`. -/
def emptyFrame : NormFrame := ⟨none, []⟩

/-- Re-index a series of cells to a `RangeIndex` of length `n`: keep the
first `n` positions, pad missing positions with `NaN`. -/
def alignTo (n : Nat) (xs : List (Option ℚ)) : List (Option ℚ) :=
  xs.take n ++ List.replicate (n - xs.length) none

/-- `frame[p] = 0`: the scalar is broadcast over the frame's current index
(zero rows while the index is still empty). -/
def setScalarZero (f : NormFrame) (p : String) : NormFrame :=
  ⟨f.idx, f.cols ++ [(p, List.replicate (f.idx.getD 0) (some 0))]⟩

/-- `frame[p] = series`: while the frame's index is empty and the series is
non-empty, pandas re-indexes the frame to the series' index
(`DataFrame._ensure_valid_index`), filling the previously assigned columns
with `NaN`; otherwise the series is aligned to the established index. -/
def setSeries (f : NormFrame) (p : String) (xs : List (Option ℚ)) : NormFrame :=
  match f.idx with
  | none =>
    if 0 < xs.length then
      ⟨some xs.length,
        (f.cols.map (fun c => (c.1, List.replicate xs.length (none : Option ℚ))))
          ++ [(p, xs)]⟩
    else ⟨none, f.cols ++ [(p, xs)]⟩
  | some n => ⟨some n, f.cols ++ [(p, alignTo n xs)]⟩

/-- The four key pollutant labels of `calculate_aqi`. -/
def key_pollutants : List String := ["CO(GT)", "C6H6(GT)", "NOx(GT)", "NO2(GT)"]

/-- `[p for p in key_pollutants if p in df.columns]`. -/
def availablePollutants (df : Table) : List String :=
  key_pollutants.filter (fun p => p ∈ names df)

/-- One iteration of the normalization loop of `calculate_aqi`. -/
def stepPollutant (df : Table) (f : NormFrame) (p : String) : NormFrame :=
  let xs := getNumeric df p
  match colMax xs, colMin xs with
  | some M, some m =>
    if M > m then setSeries f p (normSeries M m xs) else setScalarZero f p
  | _, _ => setScalarZero f p

/-- The fully built `normalized` frame of `calculate_aqi`. -/
def normalizedFrame (df : Table) : NormFrame :=
  (availablePollutants df).foldl (stepPollutant df) emptyFrame

/-- `NaN`-skipping binary maximum, the accumulator step of
`DataFrame.max(axis=1)`. -/
def optMax2 : Option ℚ → Option ℚ → Option ℚ
  | none, o => o
  | some a, none => some a
  | some a, some b => some (max a b)

/-- Row `i` of `normalized.max(axis=1)`. -/
def rowMaxAt (f : NormFrame) (i : Nat) : Option ℚ :=
  (f.cols.map (fun c => (c.2.get? i).bind id)).foldl optMax2 none

/-- `normalized.max(axis=1)`: one `NaN`-skipping maximum per index entry. -/
def frameRowMax (f : NormFrame) : List (Option ℚ) :=
  (List.range (f.idx.getD 0)).map (rowMaxAt f)

/-- The Composite Index Table: the retained `DateTime` column and the `AQI`
score column. -/
structure AqiResult where
  dateTime : ColData
  aqi : List (Option ℚ)
  deriving DecidableEq

/-- `calculate_aqi`: copy `df['DateTime']` (a `KeyError` if absent), fail
with `ValueError` when no key pollutant is present, otherwise build the
normalized frame and take the row-wise maximum, aligned to the output
frame's index (the length of the `DateTime` column). -/
def calculate_aqi (df : Table) : Except AnalysisError AqiResult :=
  match getCol? df "DateTime" with
  | none => .error (.keyError "DateTime")
  | some dtc =>
    if (availablePollutants df).isEmpty then
      .error (.valueError
        "None of the key pollutants needed for AQI calculation are available in the dataset.")
    else
      .ok ⟨dtc.data, alignTo (colLength dtc.data) (frameRowMax (normalizedFrame df))⟩

/-! ### Outlier Detector (`analysis.detect_outliers`)

`scipy.stats.zscore` uses the population standard deviation (`ddof=0`).
The code's test `|z| > 3`, i.e. `|x - mean| / sqrt(var) > 3`, is modelled
in the equivalent squared form `(x - mean)^2 > 9 * var`, which keeps the
computation inside `ℚ`; for `var = 0` the float code produces `NaN`
z-scores and `NaN > 3` is false, matched by `(x - mean)^2 > 0` being false
since a zero-variance column is constant.  The numeric value of the
`_z_score` output column (an irrational square root) is not modelled; its
derived `_is_outlier` flag is. -/

/-- Mean of a list of present values (`ddof`-free population mean). -/
def popMean (vs : List ℚ) : ℚ := vs.sum / (vs.length : ℚ)

/-- Population variance (`ddof=0`), as used by `scipy.stats.zscore`. -/
def popVar (vs : List ℚ) : ℚ :=
  ((vs.map (fun v => (v - popMean vs) ^ 2)).sum) / (vs.length : ℚ)

/-- Whether the absolute z-score of `v` within `vs` exceeds 3, in squared
form. -/
def zFlag (vs : List ℚ) (v : ℚ) : Bool :=
  decide ((v - popMean vs) ^ 2 > 9 * popVar vs)

/-- Labels of the numeric columns (`select_dtypes(include=[np.number])`). -/
def numericNames (df : Table) : List String :=
  (df.filter (fun c =>
    match c.data with
    | .numeric _ => true
    | _ => false)).map Column.name

/-- Whether label `nm` is a numeric column of `df` (the
`column in df.columns and df[column].dtype in [np.float64, np.int64]`
guard). -/
def isNumericCol (df : Table) (nm : String) : Bool :=
  match getCol? df nm with
  | some c =>
    match c.data with
    | .numeric _ => true
    | _ => false
  | none => false

/-- Whether row `i` of column `nm` is flagged as an outlier: the cell is
present and its absolute z-score within the column's present cells exceeds
3.  Rows whose cell is absent get no flag (`z_scores` is re-indexed over
`dropna()`), and non-numeric or missing columns flag nothing. -/
def colFlag (df : Table) (nm : String) (i : Nat) : Bool :=
  match getCol? df nm with
  | some c =>
    match c.data with
    | .numeric xs =>
      match (xs.get? i).bind id with
      | some v => zFlag (xs.filterMap id) v
      | none => false
    | _ => false
  | none => false

/-- The Outlier Table: the indices of the selected rows (`df[outlier_mask]`)
and, per checked numeric column, its `_is_outlier` flags over the selected
rows. -/
structure OutlierResult where
  rows : List Nat
  flagCols : List (String × List Bool)
  deriving DecidableEq

/-- `detect_outliers`: check the given columns (all numeric columns when the
argument is omitted), select every row flagged by at least one checked
column, and attach the per-column flags over the selected rows. -/
def detect_outliers (df : Table) (columnsArg : Option (List String)) : OutlierResult :=
  let checked := columnsArg.getD (numericNames df)
  let rows := (List.range (nRows df)).filter
    (fun i => checked.any (fun nm => colFlag df nm i))
  ⟨rows,
    (checked.filter (fun nm => isNumericCol df nm)).map
      (fun nm => (nm, rows.map (fun i => colFlag df nm i)))⟩

/-! ### Temporal Aggregator (`analysis.perform_time_analysis`)

`perform_time_analysis` both returns its result dictionary and assigns
`df['Day_cat']`/`df['Month_cat']` on the *input* frame, so it is modelled
as a state-passing function returning the result together with the final
state of the input table. -/

/-- Weekday names, Monday first (the code's `day_order`). -/
def day_order : List String :=
  ["Monday", "Tuesday", "Wednesday", "Thursday", "Friday", "Saturday", "Sunday"]

/-- Month names, January first (the code's `month_order`). -/
def month_order : List String :=
  ["January", "February", "March", "April", "May", "June",
   "July", "August", "September", "October", "November", "December"]

/-- `pd.Categorical(df[nm], categories=cats)`: the cells of column `nm` with
every value outside `cats` (and every cell of a non-string column measured
against string categories) mapped to absent. -/
def catFromCol (df : Table) (nm : String) (cats : List String) (n : Nat) :
    List (Option String) :=
  match getCol? df nm with
  | some c =>
    match c.data with
    | .text xs => xs.map (fun o => o.bind (fun s => if s ∈ cats then some s else none))
    | _ => List.replicate n none
  | none => List.replicate n none

/-- Distinct present values of a column (`Series.nunique()`). -/
def nuniqueData : ColData → Nat
  | .numeric xs => (xs.filterMap id).dedup.length
  | .text xs => (xs.filterMap id).dedup.length
  | .datetime xs => (xs.filterMap id).dedup.length
  | .categorical xs _ => (xs.filterMap id).dedup.length

/-- `df['Month'].nunique()`. -/
def monthNunique (df : Table) : Nat :=
  match getCol? df "Month" with
  | some c => nuniqueData c.data
  | none => 0

/-- The numeric columns aggregated by every temporal table: all numeric
columns except `Hour`, `Day` and `Month` (computed before the `_cat`
columns are added, exactly as in the code). -/
def aggNumericCols (df : Table) : List String :=
  (numericNames df).filter (fun nm => !(nm = "Hour" ∨ nm = "Day" ∨ nm = "Month"))

/-- Indices of the rows whose group key equals `k` (pandas `groupby` drops
rows with an absent key). -/
def groupIdx {α : Type} [DecidableEq α] (keys : List (Option α)) (k : α) : List Nat :=
  (List.range keys.length).filter (fun i => keys.get? i = some (some k))

/-- `groupby(...)[numeric_cols].mean()` for one group: per aggregated
column, the mean of the present cells at the group's rows (absent when the
group has none). -/
def meanOver (df : Table) (cols : List String) (idxs : List Nat) :
    List (String × Option ℚ) :=
  cols.map (fun nm =>
    let vs := idxs.filterMap (fun i => ((getNumeric df nm).get? i).bind id)
    (nm, if vs.length = 0 then none else some (vs.sum / (vs.length : ℚ))))

/-- A grouped mean table: one row per key of `ks`, in that order. -/
def aggBy {α : Type} [DecidableEq α] (df : Table) (keys : List (Option α))
    (ks : List α) : List (α × List (String × Option ℚ)) :=
  ks.map (fun k => (k, meanOver df (aggNumericCols df) (groupIdx keys k)))

/-- Distinct present keys sorted ascending, the key order of a plain
(non-categorical) `groupby`. -/
def hourlyKeys (keys : List (Option ℚ)) : List ℚ :=
  List.insertionSort (· ≤ ·) (keys.filterMap id).dedup

/-- The result dictionary of `perform_time_analysis`: the hourly table (set
whenever the function returns) and the optional daily and monthly tables. -/
structure TimeResult where
  hourly : List (ℚ × List (String × Option ℚ))
  daily : Option (List (String × List (String × Option ℚ)))
  monthly : Option (List (String × List (String × Option ℚ)))
  deriving DecidableEq

/-- `perform_time_analysis`, returning the result and the final state of
the input table.  A missing `DateTime` column raises `ValueError`; the
hourly `groupby` raises `KeyError` when `Hour` is missing; when `Day`
(resp. `Month` with more than one distinct value) is present, an ordered
categorical helper column `Day_cat` (resp. `Month_cat`) is assigned on the
input frame and the groups are the categories present, in category order
(`observed=True`). -/
def perform_time_analysis (df : Table) :
    Except AnalysisError TimeResult × Table :=
  if "DateTime" ∈ names df then
    if "Hour" ∈ names df then
      let hourKeys := getNumeric df "Hour"
      let hourly := aggBy df hourKeys (hourlyKeys hourKeys)
      let n := nRows df
      let dayCells := catFromCol df "Day" day_order n
      let daily :=
        if "Day" ∈ names df then
          some (aggBy df dayCells (day_order.filter (fun d => (some d) ∈ dayCells)))
        else none
      let df1 :=
        if "Day" ∈ names df then
          setCol df "Day_cat" (.categorical dayCells day_order)
        else df
      let monthCells := catFromCol df "Month" month_order n
      let monthly :=
        if "Month" ∈ names df ∧ 1 < monthNunique df then
          some (aggBy df monthCells (month_order.filter (fun m => (some m) ∈ monthCells)))
        else none
      let df2 :=
        if "Month" ∈ names df ∧ 1 < monthNunique df then
          setCol df1 "Month_cat" (.categorical monthCells month_order)
        else df1
      (.ok ⟨hourly, daily, monthly⟩, df2)
    else (.error (.keyError "Hour"), df)
  else
    (.error (.valueError "DataFrame must contain 'DateTime' column for time analysis"), df)

/-! ### Characterization helpers and concrete tables used by the theorems -/

/-- The value a pollutant column contributes to the `normalized` frame once
the frame's index has length `n`: the min-max normalized series when the
column varies, otherwise a constant-zero column (used to characterize
`normalizedFrame`). -/
def normColumn (n : Nat) (xs : List (Option ℚ)) : List (Option ℚ) :=
  match colMax xs, colMin xs with
  | some M, some m =>
    if M > m then normSeries M m xs else List.replicate n (some 0)
  | _, _ => List.replicate n (some 0)

/-- Spec scenario table: a `CO(GT)` column `[2.0, absent, 4.0]`. -/
def exImpute : Table :=
  [⟨"Date", .text [some "01/01/2020", some "01/01/2020", some "01/01/2020"]⟩,
   ⟨"CO(GT)", .numeric [some 2, none, some 4]⟩]

/-- A fully populated table. -/
def exFull : Table :=
  [⟨"Date", .text [some "d1"]⟩, ⟨"Time", .text [some "t1"]⟩,
   ⟨"CO(GT)", .numeric [some 2]⟩]

/-- A raw table with a trailing-semicolon label, a sentinel cell and a
placeholder column. -/
def exRaw : Table :=
  [⟨"Date", .text [some "d1", some "d2"]⟩,
   ⟨"CO(GT);", .numeric [some (-200), some 3]⟩,
   ⟨"Unnamed: 15", .numeric [none, none]⟩]

/-- A table whose only available pollutant is constant. -/
def exConstAqi : Table :=
  [⟨"DateTime", .datetime [some 0]⟩, ⟨"CO(GT)", .numeric [some 5]⟩]

/-- A table with one varying pollutant. -/
def exVaryAqi : Table :=
  [⟨"DateTime", .datetime [some 0, some 1]⟩, ⟨"CO(GT)", .numeric [some 1, some 3]⟩]

/-- A table whose first available pollutant is entirely absent and whose
second one varies. -/
def exDropAqi : Table :=
  [⟨"DateTime", .datetime [some 0, some 1, some 2]⟩,
   ⟨"CO(GT)", .numeric [none, none, none]⟩,
   ⟨"C6H6(GT)", .numeric [some 1, some 2, none]⟩]

/-- A table with a varying pollutant followed by an entirely absent one. -/
def exZeroAqi : Table :=
  [⟨"DateTime", .datetime [some 0, some 1]⟩,
   ⟨"CO(GT)", .numeric [some 1, some 2]⟩,
   ⟨"NOx(GT)", .numeric [none, none]⟩]

/-- The spec's outlier scenario column `[1, 1, 1, 1, 100]`. -/
def exOutlier : Table :=
  [⟨"X", .numeric [some 1, some 1, some 1, some 1, some 100]⟩]

/-- A prepared two-row table spanning two months. -/
def exTime2 : Table :=
  [⟨"DateTime", .datetime [some 0, some 1]⟩,
   ⟨"Hour", .numeric [some 10, some 11]⟩,
   ⟨"Day", .text [some "Monday", some "Tuesday"]⟩,
   ⟨"Month", .text [some "March", some "January"]⟩,
   ⟨"CO(GT)", .numeric [some 1, some 2]⟩]

/-- A prepared single-row table (one month). -/
def exTime1 : Table :=
  [⟨"DateTime", .datetime [some 0]⟩, ⟨"Hour", .numeric [some 10]⟩,
   ⟨"Day", .text [some "Monday"]⟩]

/-- A table without a `DateTime` column. -/
def exNoDT : Table := [⟨"Hour", .numeric [some 1]⟩]

/-! ## Lemmas about the Imputer -/

theorem length_interpolateLinearBoth (xs : List (Option ℚ)) :
    (interpolateLinearBoth xs).length = xs.length := by
  simp [interpolateLinearBoth]

theorem lt_length_of_get?_eq_some {α : Type} {l : List α} {n : Nat} {a : α}
    (h : l.get? n = some a) : n < l.length := by
  by_contra hc
  rw [List.get?_eq_none.mpr (Nat.le_of_not_lt hc)] at h
  exact Option.noConfusion h

theorem get?_replicate_of_lt {α : Type} {n i : Nat} {a : α} (h : i < n) :
    (List.replicate n a).get? i = some a := by
  simp [List.get?_eq_getElem?, List.getElem?_replicate, h]

theorem prevValid_isSome {xs : List (Option ℚ)} {i j : Nat} {v : ℚ}
    (hji : j < i) (hj : xs.get? j = some (some v)) :
    (prevValid xs i).isSome := by
  rw [prevValid]
  apply List.getLast?_isSome.mpr
  apply List.ne_nil_of_mem (a := (j, v))
  rw [List.mem_filterMap]
  exact ⟨j, List.mem_range.mpr hji, by rw [hj]⟩

theorem nextValid_isSome {xs : List (Option ℚ)} {i j : Nat} {v : ℚ}
    (hij : i < j) (hj : xs.get? j = some (some v)) :
    (nextValid xs i).isSome := by
  rw [nextValid]
  apply List.head?_isSome.mpr
  apply List.ne_nil_of_mem (a := (j, v))
  rw [List.mem_filterMap]
  refine ⟨j, ?_, by rw [hj]⟩
  have hjlen : j < xs.length := lt_length_of_get?_eq_some hj
  apply List.get?_mem (n := j - (i + 1))
  rw [List.get?_drop]
  have hji : i + 1 + (j - (i + 1)) = j := by omega
  rw [hji, List.get?_range hjlen]

theorem isSome_of_mem_interpolate {xs : List (Option ℚ)}
    (hx : ∃ x ∈ xs, x.isSome) :
    ∀ y ∈ interpolateLinearBoth xs, y.isSome := by
  obtain ⟨x, hxmem, hxs⟩ := hx
  obtain ⟨v, rfl⟩ := Option.isSome_iff_exists.mp hxs
  obtain ⟨j, hj⟩ := List.mem_iff_get?.mp hxmem
  intro y hy
  rw [interpolateLinearBoth] at hy
  obtain ⟨i, hi, rfl⟩ := List.mem_map.mp hy
  rw [List.mem_range] at hi
  cases hgi : xs.get? i with
  | none =>
    exact absurd (List.get?_eq_none.mp hgi) (Nat.not_le_of_lt hi)
  | some o =>
    cases o with
    | some w => simp [hgi]
    | none =>
      rcases Nat.lt_trichotomy j i with hji | rfl | hij
      · obtain ⟨⟨pj, pv⟩, hp⟩ :=
          Option.isSome_iff_exists.mp (prevValid_isSome hji hj)
        cases hnext : nextValid xs i with
        | none => simp [hgi, hp, hnext]
        | some nk => rcases nk with ⟨nj, nv⟩; simp [hgi, hp, hnext]
      · rw [hj] at hgi
        exact Option.noConfusion (Option.some.inj hgi)
      · obtain ⟨⟨nj, nv⟩, hn⟩ :=
          Option.isSome_iff_exists.mp (nextValid_isSome hij hj)
        cases hprev : prevValid xs i with
        | none => simp [hgi, hprev, hn]
        | some pk => rcases pk with ⟨pj, pv⟩; simp [hgi, hprev, hn]

theorem interpolate_eq_self {xs : List (Option ℚ)}
    (h : ∀ x ∈ xs, x.isSome) : interpolateLinearBoth xs = xs := by
  apply List.ext
  intro n
  by_cases hn : n < xs.length
  · rw [interpolateLinearBoth, List.get?_map, List.get?_range hn]
    cases hx : xs.get? n with
    | none => exact absurd (List.get?_eq_none.mp hx) (Nat.not_le_of_lt hn)
    | some o =>
      cases o with
      | some v =>
        rw [List.get?_eq_getElem?] at hx
        simp [hx]
      | none =>
        exact absurd (h none (List.get?_mem hx)) (by simp)
  · rw [List.get?_eq_none.mpr (Nat.le_of_not_lt (by
      rw [length_interpolateLinearBoth]; exact hn)),
      List.get?_eq_none.mpr (Nat.le_of_not_lt hn)]

theorem ffillAux_eq_self {xs : List (Option ℚ)} (a : Option ℚ)
    (h : ∀ x ∈ xs, x.isSome) : ffillAux a xs = xs := by
  induction xs generalizing a with
  | nil => rfl
  | cons x rest ih =>
    cases x with
    | some v =>
      rw [ffillAux]
      rw [ih (some v) (fun y hy => h y (List.mem_cons_of_mem _ hy))]
    | none =>
      exact absurd (h none (List.mem_cons_self _ _)) (by simp)

theorem ffill_eq_self {xs : List (Option ℚ)}
    (h : ∀ x ∈ xs, x.isSome) : ffill xs = xs := ffillAux_eq_self none h

theorem bfill_eq_self {xs : List (Option ℚ)}
    (h : ∀ x ∈ xs, x.isSome) : bfill xs = xs := by
  rw [bfill, ffillAux_eq_self none (fun x hx => h x (List.mem_reverse.mp hx)),
    List.reverse_reverse]

theorem fillnaWith_eq_self {xs : List (Option ℚ)} (m : Option ℚ)
    (h : ∀ x ∈ xs, x.isSome) : fillnaWith m xs = xs := by
  rw [fillnaWith]
  conv_rhs => rw [← List.map_id xs]
  apply List.map_congr_left
  intro x hx
  cases x with
  | some v => rfl
  | none => exact absurd (h none hx) (by simp)

theorem imputeColumn_of_has_value {xs : List (Option ℚ)}
    (hx : ∃ x ∈ xs, x.isSome) :
    imputeColumn xs = interpolateLinearBoth xs := by
  have h1 := isSome_of_mem_interpolate hx
  rw [imputeColumn]
  rw [ffill_eq_self h1, bfill_eq_self h1, fillnaWith_eq_self _ h1]

theorem imputeColumn_eq_self {xs : List (Option ℚ)}
    (h : ∀ x ∈ xs, x.isSome) : imputeColumn xs = xs := by
  rcases xs with _ | ⟨x, rest⟩
  · rfl
  · rw [imputeColumn_of_has_value ⟨x, List.mem_cons_self _ _,
      h x (List.mem_cons_self _ _)⟩]
    exact interpolate_eq_self h

theorem imputeColIfNeeded_eq_self {c : Column}
    (h : c.name ≠ "Date" → c.name ≠ "Time" →
      ∀ xs, c.data = ColData.numeric xs → ∀ x ∈ xs, x.isSome) :
    imputeColIfNeeded c = c := by
  rw [imputeColIfNeeded]
  by_cases hcond : c.name = "Date" ∨ c.name = "Time"
  · rw [if_pos hcond]
  · rw [if_neg hcond]
    push_neg at hcond
    cases hdt : c.data with
    | numeric xs =>
      show { name := c.name, data := ColData.numeric (imputeColumn xs) } = c
      rw [imputeColumn_eq_self (h hcond.1 hcond.2 xs hdt), ← hdt]
    | text xs => rfl
    | datetime xs => rfl
    | categorical xs order => rfl

/-- C1: after `handle_missing_values`, a non-`Date`/`Time` numeric column
with at least one present cell has no absent cell left; the column keeps
its name and its length. -/
theorem imputer_fills_columns_with_data (df : Table) (i : Nat) (c : Column)
    (hget : df.get? i = some c) (hd : c.name ≠ "Date") (ht : c.name ≠ "Time")
    (xs : List (Option ℚ)) (hdata : c.data = ColData.numeric xs)
    (hx : ∃ x ∈ xs, x.isSome) :
    ∃ ys : List (Option ℚ),
      (handle_missing_values df).get? i = some ⟨c.name, ColData.numeric ys⟩ ∧
      ys.length = xs.length ∧ ∀ y ∈ ys, y.isSome := by
  refine ⟨imputeColumn xs, ?_, ?_, ?_⟩
  · rw [handle_missing_values, List.get?_map, hget, Option.map_some']
    rw [imputeColIfNeeded]
    have hcond : ¬ (c.name = "Date" ∨ c.name = "Time") := by
      intro hc
      rcases hc with h | h
      · exact hd h
      · exact ht h
    rw [if_neg hcond, hdata]
  · rw [imputeColumn_of_has_value hx, length_interpolateLinearBoth]
  · rw [imputeColumn_of_has_value hx]
    exact isSome_of_mem_interpolate hx

theorem imputer_fills_columns_with_data_witness :
    ∃ ys : List (Option ℚ),
      (handle_missing_values exImpute).get? 1 =
        some ⟨"CO(GT)", ColData.numeric ys⟩ ∧
      ys.length = ([some 2, none, some 4] : List (Option ℚ)).length ∧
      ∀ y ∈ ys, y.isSome :=
  imputer_fills_columns_with_data exImpute 1
    ⟨"CO(GT)", ColData.numeric [some 2, none, some 4]⟩ rfl
    (by decide) (by decide) [some 2, none, some 4] rfl
    ⟨some 2, by decide, by decide⟩

/-- C6: `handle_missing_values` is the identity on a table whose
non-`Date`/`Time` numeric columns are fully populated. -/
theorem imputer_identity_on_full_tables (df : Table)
    (h : ∀ c ∈ df, c.name ≠ "Date" → c.name ≠ "Time" →
      ∀ xs, c.data = ColData.numeric xs → ∀ x ∈ xs, x.isSome) :
    handle_missing_values df = df := by
  rw [handle_missing_values]
  conv_rhs => rw [← List.map_id df]
  apply List.map_congr_left
  intro c hc
  exact imputeColIfNeeded_eq_self (h c hc)

theorem imputer_identity_on_full_tables_witness :
    handle_missing_values exFull = exFull :=
  imputer_identity_on_full_tables exFull (by
    intro c hc
    simp only [exFull, List.mem_cons, List.not_mem_nil, or_false] at hc
    rcases hc with rfl | rfl | rfl
    · intro hd _ _ _
      exact absurd rfl hd
    · intro _ ht _ _
      exact absurd rfl ht
    · intro _ _ xs hxs
      injection hxs with h
      subst h
      decide)

theorem not_mem_replaceSentinel (ys : List (Option ℚ)) :
    some (-200 : ℚ) ∉ replaceSentinel ys := by
  intro h
  obtain ⟨z, _, hzeq⟩ := List.mem_map.mp h
  by_cases hz : z = some (-200 : ℚ)
  · rw [if_pos hz] at hzeq
    exact Option.noConfusion hzeq
  · rw [if_neg hz] at hzeq
    exact hz hzeq

/-- C5: a non-`Date`/`Time` numeric column of the loader's output contains
no `-200` cell; every raw `-200` cell is mapped to the absent marker by
`replaceSentinel`; and the absent marker is distinct from a zero reading. -/
theorem loader_removes_sentinel (raw : Table) (c : Column)
    (hmem : c ∈ load_and_clean_data raw)
    (hd : c.name ≠ "Date") (ht : c.name ≠ "Time")
    (xs : List (Option ℚ)) (hdata : c.data = ColData.numeric xs) :
    some (-200 : ℚ) ∉ xs ∧
    (∀ (ys : List (Option ℚ)) (i : Nat),
      ys.get? i = some (some (-200 : ℚ)) →
      (replaceSentinel ys).get? i = some none) ∧
    (none : Option ℚ) ≠ some 0 := by
  refine ⟨?_, ?_, by simp⟩
  · rw [load_and_clean_data] at hmem
    obtain ⟨c2, _, rfl⟩ := List.mem_map.mp hmem
    rw [cleanColumn] at hd ht hdata
    by_cases hcond : c2.name = "Date" ∨ c2.name = "Time"
    · rw [if_pos hcond] at hd ht
      rcases hcond with h | h
      · exact absurd h hd
      · exact absurd h ht
    · rw [if_neg hcond] at hdata
      cases hdt : c2.data with
      | numeric ys =>
        rw [hdt] at hdata
        simp only [ColData.numeric.injEq] at hdata
        rw [← hdata]
        exact not_mem_replaceSentinel ys
      | text ys =>
        rw [hdt] at hdata
        simp only at hdata
        rw [hdt] at hdata
        exact absurd hdata (by simp)
      | datetime ys =>
        rw [hdt] at hdata
        simp only at hdata
        rw [hdt] at hdata
        exact absurd hdata (by simp)
      | categorical ys order =>
        rw [hdt] at hdata
        simp only at hdata
        rw [hdt] at hdata
        exact absurd hdata (by simp)
  · intro ys i hy
    rw [replaceSentinel, List.get?_map, hy, Option.map_some']
    rw [if_pos rfl]

theorem loader_removes_sentinel_witness :
    some (-200 : ℚ) ∉ ([none, some 3] : List (Option ℚ)) ∧
    (∀ (ys : List (Option ℚ)) (i : Nat),
      ys.get? i = some (some (-200 : ℚ)) →
      (replaceSentinel ys).get? i = some none) ∧
    (none : Option ℚ) ≠ some 0 :=
  loader_removes_sentinel exRaw ⟨"CO(GT)", ColData.numeric [none, some 3]⟩
    (by decide) (by decide) (by decide) [none, some 3] rfl

/-! ## The Outlier Detector on the spec's scenario column -/

/-- C3 (counterexample): on `[1,1,1,1,100]` the row holding `100` is NOT
flagged — its absolute z-score is 2, not above 3 — and `detect_outliers`
selects no row at all, contrary to the claimed "exactly one row". -/
theorem outlier_scenario_flags_no_row :
    colFlag exOutlier "X" 4 = false ∧
    (getNumeric exOutlier "X").get? 4 = some (some 100) ∧
    (detect_outliers exOutlier none).rows = [] := by
  with_unfolding_all decide

/-- C3 (amended): on `[1,1,1,1,100]` with the z-score threshold 3, zero
rows are flagged for the column: the value `100` has absolute z-score
exactly 2 (its squared deviation is 4 times the population variance). -/
theorem outlier_scenario_zero_flags :
    (∀ i : Nat, colFlag exOutlier "X" i = false) ∧
    (detect_outliers exOutlier none).rows = [] ∧
    ((100 : ℚ) - popMean [1, 1, 1, 1, 100]) ^ 2 =
      4 * popVar [1, 1, 1, 1, 100] := by
  refine ⟨?_, by with_unfolding_all decide, by norm_num [popMean, popVar]⟩
  intro i
  rcases i with _ | _ | _ | _ | _ | i
  · with_unfolding_all decide
  · with_unfolding_all decide
  · with_unfolding_all decide
  · with_unfolding_all decide
  · with_unfolding_all decide
  · rfl

/-! ## The Temporal Aggregator -/

theorem setCol_append (df : Table) (s : String) (d : ColData)
    (h : s ∉ names df) : setCol df s d = df ++ [⟨s, d⟩] := by
  rw [setCol, if_neg h]

theorem map_fst_aggBy {α : Type} [DecidableEq α] (df : Table)
    (keys : List (Option α)) (ks : List α) :
    (aggBy df keys ks).map Prod.fst = ks := by
  rw [aggBy, List.map_map]
  exact List.map_id ks

/-- C8: when the unified `DateTime` column is absent, `perform_time_analysis`
fails with the `ValueError` (`MissingFieldError`) and produces no aggregate
table at all: the result carries no tables and the input is untouched. -/
theorem time_analysis_requires_datetime (df : Table)
    (h : "DateTime" ∉ names df) :
    (perform_time_analysis df).1 =
      .error (.valueError
        "DataFrame must contain 'DateTime' column for time analysis") ∧
    (perform_time_analysis df).2 = df := by
  rw [perform_time_analysis, if_neg h]
  exact ⟨rfl, rfl⟩

theorem time_analysis_requires_datetime_witness :
    (perform_time_analysis exNoDT).1 =
      .error (.valueError
        "DataFrame must contain 'DateTime' column for time analysis") ∧
    (perform_time_analysis exNoDT).2 = exNoDT :=
  time_analysis_requires_datetime exNoDT (by decide)

/-- C7: on a prepared table (with `DateTime`, `Hour`, `Day` and `Month`
columns), `perform_time_analysis` succeeds, returns a monthly table exactly
when the data holds more than one distinct month, orders a produced monthly
table as a sublist of January→December, and always returns the daily table
(and the hourly table, which the result structure always carries). -/
theorem monthly_table_iff_multiple_months (df : Table)
    (hdt : "DateTime" ∈ names df) (hh : "Hour" ∈ names df)
    (hday : "Day" ∈ names df) (hmonth : "Month" ∈ names df) :
    ∃ r : TimeResult, (perform_time_analysis df).1 = .ok r ∧
      (r.monthly.isSome ↔ 1 < monthNunique df) ∧
      (∀ t, r.monthly = some t → (t.map Prod.fst).Sublist month_order) ∧
      r.daily.isSome := by
  rw [perform_time_analysis, if_pos hdt, if_pos hh]
  refine ⟨_, rfl, ?_, ?_, ?_⟩
  · by_cases hcond : "Month" ∈ names df ∧ 1 < monthNunique df
    · simp only [if_pos hcond, Option.isSome_some, true_iff]
      exact hcond.2
    · simp only [if_neg hcond, Option.isSome_none, Bool.false_eq_true, false_iff]
      intro hlt
      exact hcond ⟨hmonth, hlt⟩
  · intro t ht
    by_cases hcond : "Month" ∈ names df ∧ 1 < monthNunique df
    · rw [if_pos hcond] at ht
      obtain rfl := Option.some.inj ht
      rw [map_fst_aggBy]
      exact List.filter_sublist month_order
    · rw [if_neg hcond] at ht
      exact Option.noConfusion ht
  · rw [if_pos hday]
    exact rfl

theorem monthly_table_iff_multiple_months_witness :
    ∃ r : TimeResult, (perform_time_analysis exTime2).1 = .ok r ∧
      (r.monthly.isSome ↔ 1 < monthNunique exTime2) ∧
      (∀ t, r.monthly = some t → (t.map Prod.fst).Sublist month_order) ∧
      r.daily.isSome :=
  monthly_table_iff_multiple_months exTime2
    (by decide) (by decide) (by decide) (by decide)

/-- C9 (counterexample): `perform_time_analysis` is NOT a pure function of
its input table: on a table with a `Day` column it assigns the helper
column `Day_cat` on the input frame, so after the stage runs the input has
gained a column. -/
theorem time_analysis_mutates_input :
    (perform_time_analysis exTime1).2 ≠ exTime1 ∧
    (perform_time_analysis exTime1).2 =
      exTime1 ++ [⟨"Day_cat", ColData.categorical [some "Monday"] day_order⟩] := by
  constructor
  · with_unfolding_all decide
  · with_unfolding_all decide

/-- C9 (amended): the only frame effect of the analysis stages is that
`perform_time_analysis` appends the helper columns `Day_cat` (when `Day` is
present) and `Month_cat` (when `Month` is present with more than one
distinct value) to the input table; the rest of the input is unchanged —
the other stages, modelled as pure functions of the table, read it only. -/
theorem time_analysis_mutation_only_cat_columns (df : Table)
    (h1 : "Day_cat" ∉ names df) (h2 : "Month_cat" ∉ names df) :
    ∃ extra : Table, (perform_time_analysis df).2 = df ++ extra ∧
      ∀ c ∈ extra, c.name = "Day_cat" ∨ c.name = "Month_cat" := by
  rw [perform_time_analysis]
  by_cases hdt : "DateTime" ∈ names df
  · rw [if_pos hdt]
    by_cases hh : "Hour" ∈ names df
    · rw [if_pos hh]
      by_cases hday : "Day" ∈ names df
      · by_cases hcond : "Month" ∈ names df ∧ 1 < monthNunique df
        · refine ⟨[⟨"Day_cat", ColData.categorical
              (catFromCol df "Day" day_order (nRows df)) day_order⟩,
            ⟨"Month_cat", ColData.categorical
              (catFromCol df "Month" month_order (nRows df)) month_order⟩],
            ?_, by simp⟩
          simp only [if_pos hday, if_pos hcond]
          rw [setCol_append df _ _ h1, setCol_append, List.append_assoc]
          · rfl
          · rw [names, List.map_append, List.mem_append]
            intro hc
            rcases hc with hc | hc
            · exact h2 hc
            · simp at hc
        · refine ⟨[⟨"Day_cat", ColData.categorical
              (catFromCol df "Day" day_order (nRows df)) day_order⟩], ?_, by simp⟩
          simp only [if_pos hday, if_neg hcond]
          exact setCol_append df _ _ h1
      · by_cases hcond : "Month" ∈ names df ∧ 1 < monthNunique df
        · refine ⟨[⟨"Month_cat", ColData.categorical
              (catFromCol df "Month" month_order (nRows df)) month_order⟩],
            ?_, by simp⟩
          simp only [if_neg hday, if_pos hcond]
          exact setCol_append df _ _ h2
        · refine ⟨[], ?_, by simp⟩
          simp only [if_neg hday, if_neg hcond]
          exact (List.append_nil df).symm
    · rw [if_neg hh]
      exact ⟨[], (List.append_nil df).symm, by simp⟩
  · rw [if_neg hdt]
    exact ⟨[], (List.append_nil df).symm, by simp⟩

theorem time_analysis_mutation_only_cat_columns_witness :
    ∃ extra : Table, (perform_time_analysis exTime2).2 = exTime2 ++ extra ∧
      ∀ c ∈ extra, c.name = "Day_cat" ∨ c.name = "Month_cat" :=
  time_analysis_mutation_only_cat_columns exTime2 (by decide) (by decide)

/-! ## Lemmas about the Composite Index Calculator -/

theorem length_normSeries (M m : ℚ) (xs : List (Option ℚ)) :
    (normSeries M m xs).length = xs.length := by
  simp [normSeries]

theorem alignTo_length (n : Nat) (xs : List (Option ℚ)) :
    (alignTo n xs).length = n := by
  simp [alignTo]
  omega

theorem alignTo_eq_self {n : Nat} {xs : List (Option ℚ)} (h : xs.length = n) :
    alignTo n xs = xs := by
  subst h
  rw [alignTo, Nat.sub_self, List.replicate_zero, List.append_nil,
    List.take_length]

theorem getCol?_isSome_of_mem {df : Table} {s : String} (h : s ∈ names df) :
    ∃ c, getCol? df s = some c := by
  rw [names] at h
  obtain ⟨c, hc, hname⟩ := List.mem_map.mp h
  exact Option.isSome_iff_exists.mp
    (List.find?_isSome.mpr ⟨c, hc, by simp [hname]⟩)

theorem varies_elim {xs : List (Option ℚ)} (h : varies xs = true) :
    ∃ M m, colMax xs = some M ∧ colMin xs = some m ∧ M > m := by
  rw [varies] at h
  cases hM : colMax xs with
  | none => rw [hM] at h; exact absurd h (by simp)
  | some M =>
    cases hm : colMin xs with
    | none => rw [hM, hm] at h; exact absurd h (by simp)
    | some m =>
      rw [hM, hm] at h
      exact ⟨M, m, rfl, rfl, of_decide_eq_true h⟩

theorem length_pos_of_varies {xs : List (Option ℚ)} (h : varies xs = true) :
    0 < xs.length := by
  obtain ⟨M, _, hM, _, _⟩ := varies_elim h
  rw [colMax] at hM
  cases hfm : xs.filterMap id with
  | nil => rw [hfm] at hM; exact Option.noConfusion hM
  | cons v vs =>
    have hv : v ∈ xs.filterMap id := by rw [hfm]; exact List.mem_cons_self _ _
    obtain ⟨o, ho, _⟩ := List.mem_filterMap.mp hv
    exact List.length_pos.mpr (List.ne_nil_of_mem ho)

theorem le_foldl_max (l : List ℚ) (a : ℚ) : a ≤ l.foldl max a := by
  induction l generalizing a with
  | nil => exact le_refl a
  | cons b l ih => exact le_trans (le_max_left a b) (ih (max a b))

theorem mem_le_foldl_max {l : List ℚ} {x : ℚ} (a : ℚ) (h : x ∈ l) :
    x ≤ l.foldl max a := by
  induction l generalizing a with
  | nil => cases h
  | cons b l ih =>
    rcases List.mem_cons.mp h with rfl | h
    · exact le_trans (le_max_right a x) (le_foldl_max l (max a x))
    · exact ih (max a b) h

theorem foldl_min_le (l : List ℚ) (a : ℚ) : l.foldl min a ≤ a := by
  induction l generalizing a with
  | nil => exact le_refl a
  | cons b l ih => exact le_trans (ih (min a b)) (min_le_left a b)

theorem foldl_min_le_mem {l : List ℚ} {x : ℚ} (a : ℚ) (h : x ∈ l) :
    l.foldl min a ≤ x := by
  induction l generalizing a with
  | nil => cases h
  | cons b l ih =>
    rcases List.mem_cons.mp h with rfl | h
    · exact le_trans (foldl_min_le l (min a x)) (min_le_right a x)
    · exact ih (min a b) h

theorem le_of_colMax {xs : List (Option ℚ)} {M u : ℚ} (h : colMax xs = some M)
    (hu : some u ∈ xs) : u ≤ M := by
  rw [colMax] at h
  have humem : u ∈ xs.filterMap id := List.mem_filterMap.mpr ⟨some u, hu, rfl⟩
  cases hfm : xs.filterMap id with
  | nil => rw [hfm] at h; exact Option.noConfusion h
  | cons v vs =>
    rw [hfm] at h humem
    obtain rfl := Option.some.inj h
    rcases List.mem_cons.mp humem with rfl | humem
    · exact le_foldl_max vs u
    · exact mem_le_foldl_max v humem

theorem colMin_le {xs : List (Option ℚ)} {m u : ℚ} (h : colMin xs = some m)
    (hu : some u ∈ xs) : m ≤ u := by
  rw [colMin] at h
  have humem : u ∈ xs.filterMap id := List.mem_filterMap.mpr ⟨some u, hu, rfl⟩
  cases hfm : xs.filterMap id with
  | nil => rw [hfm] at h; exact Option.noConfusion h
  | cons v vs =>
    rw [hfm] at h humem
    obtain rfl := Option.some.inj h
    rcases List.mem_cons.mp humem with rfl | humem
    · exact foldl_min_le vs u
    · exact foldl_min_le_mem v humem

theorem mem_normColumn_bounds {n : Nat} {xs : List (Option ℚ)} {v : ℚ}
    (h : some v ∈ normColumn n xs) : 0 ≤ v ∧ v ≤ 100 := by
  rw [normColumn] at h
  cases hM : colMax xs with
  | none =>
    rw [hM] at h
    cases hm : colMin xs with
    | none =>
      rw [hm] at h
      obtain rfl := Option.some.inj (List.eq_of_mem_replicate h).symm
      norm_num
    | some m =>
      rw [hm] at h
      obtain rfl := Option.some.inj (List.eq_of_mem_replicate h).symm
      norm_num
  | some M =>
    rw [hM] at h
    cases hm : colMin xs with
    | none =>
      rw [hm] at h
      obtain rfl := Option.some.inj (List.eq_of_mem_replicate h).symm
      norm_num
    | some m =>
      rw [hm] at h
      have h2 : some v ∈
          (if M > m then normSeries M m xs else List.replicate n (some 0)) := h
      by_cases hMm : M > m
      · rw [if_pos hMm] at h2
        replace h := h2
        rw [normSeries] at h
        obtain ⟨o, ho, hof⟩ := List.mem_map.mp h
        cases o with
        | none => exact Option.noConfusion hof
        | some u =>
          obtain rfl := Option.some.inj hof
          have hmu : m ≤ u := colMin_le hm ho
          have huM : u ≤ M := le_of_colMax hM ho
          have hpos : (0 : ℚ) < M - m := sub_pos.mpr hMm
          constructor
          · exact div_nonneg
              (mul_nonneg (by norm_num) (sub_nonneg.mpr hmu)) (le_of_lt hpos)
          · rw [div_le_iff hpos]
            calc 100 * (u - m) ≤ 100 * (M - m) := by
                  exact mul_le_mul_of_nonneg_left
                    (sub_le_sub_right huM m) (by norm_num)
              _ = 100 * (M - m) := rfl
      · rw [if_neg hMm] at h2
        obtain rfl := Option.some.inj (List.eq_of_mem_replicate h2).symm
        norm_num

theorem optMax2_eq_none {a b : Option ℚ} :
    optMax2 a b = none ↔ a = none ∧ b = none := by
  cases a <;> cases b <;> simp [optMax2]

theorem foldl_optMax2_eq_none {l : List (Option ℚ)} {acc : Option ℚ} :
    l.foldl optMax2 acc = none ↔ acc = none ∧ ∀ o ∈ l, o = none := by
  induction l generalizing acc with
  | nil => simp
  | cons o l ih =>
    rw [List.foldl_cons, ih, optMax2_eq_none]
    constructor
    · rintro ⟨⟨ha, ho⟩, hl⟩
      refine ⟨ha, fun x hx => ?_⟩
      rcases List.mem_cons.mp hx with rfl | hx
      · exact ho
      · exact hl x hx
    · rintro ⟨ha, h⟩
      exact ⟨⟨ha, h o (List.mem_cons_self _ _)⟩,
        fun x hx => h x (List.mem_cons_of_mem _ hx)⟩

theorem foldl_optMax2_isSome_of_mem {l : List (Option ℚ)} {acc : Option ℚ}
    {v : ℚ} (h : some v ∈ l) : (l.foldl optMax2 acc).isSome := by
  cases hres : l.foldl optMax2 acc with
  | some w => rfl
  | none =>
    exact absurd ((foldl_optMax2_eq_none.mp hres).2 (some v) h) (by simp)

theorem foldl_optMax2_bounds {P : ℚ → Prop}
    (hP : ∀ a b, P a → P b → P (max a b)) {l : List (Option ℚ)} :
    ∀ {acc : Option ℚ}, (∀ v : ℚ, some v ∈ l → P v) →
    (∀ v : ℚ, acc = some v → P v) →
    ∀ v : ℚ, l.foldl optMax2 acc = some v → P v := by
  induction l with
  | nil =>
    intro acc _ hacc v hv
    exact hacc v hv
  | cons o l ih =>
    intro acc hl hacc v hv
    rw [List.foldl_cons] at hv
    refine ih (fun w hw => hl w (List.mem_cons_of_mem _ hw)) ?_ v hv
    intro w hw
    cases acc with
    | none =>
      cases o with
      | none => exact Option.noConfusion hw
      | some b =>
        have hw2 : some b = some w := hw
        obtain rfl := Option.some.inj hw2
        exact hl b (List.mem_cons_self _ _)
    | some a =>
      cases o with
      | none =>
        have hw2 : some a = some w := hw
        obtain rfl := Option.some.inj hw2
        exact hacc a rfl
      | some b =>
        have hw2 : some (max a b) = some w := hw
        obtain rfl := Option.some.inj hw2
        exact hP a b (hacc a rfl) (hl b (List.mem_cons_self _ _))

theorem stepPollutant_nonvary {df : Table} {p : String}
    (hp : varies (getNumeric df p) = false) (f : NormFrame) :
    stepPollutant df f p = setScalarZero f p := by
  rw [stepPollutant, varies] at *
  cases hM : colMax (getNumeric df p) with
  | none =>
    cases hm : colMin (getNumeric df p) with
    | none => simp [hM, hm]
    | some m => simp [hM, hm]
  | some M =>
    cases hm : colMin (getNumeric df p) with
    | none => simp [hM, hm]
    | some m =>
      rw [hM, hm] at hp
      simp only [hM, hm]
      rw [if_neg (of_decide_eq_false hp)]

theorem stepPollutant_vary {df : Table} {p : String} {M m : ℚ}
    (hM : colMax (getNumeric df p) = some M)
    (hm : colMin (getNumeric df p) = some m) (hMm : M > m) (f : NormFrame) :
    stepPollutant df f p = setSeries f p (normSeries M m (getNumeric df p)) := by
  rw [stepPollutant]
  simp only [hM, hm]
  rw [if_pos hMm]

theorem foldl_nonvary (df : Table) (L : List String)
    (C : List (String × List (Option ℚ)))
    (h : ∀ p ∈ L, varies (getNumeric df p) = false) :
    L.foldl (stepPollutant df) ⟨none, C⟩ =
      ⟨none, C ++ L.map (fun p => (p, ([] : List (Option ℚ))))⟩ := by
  induction L generalizing C with
  | nil => simp
  | cons p L ih =>
    rw [List.foldl_cons,
      stepPollutant_nonvary (h p (List.mem_cons_self _ _))]
    rw [setScalarZero]
    simp only [Option.getD_none, List.replicate_zero]
    rw [ih (C ++ [(p, [])]) (fun r hr => h r (List.mem_cons_of_mem _ hr))]
    simp

theorem foldl_established (df : Table) (L : List String) (n : Nat)
    (C : List (String × List (Option ℚ)))
    (hlen : ∀ p ∈ L, (getNumeric df p).length = n) :
    L.foldl (stepPollutant df) ⟨some n, C⟩ =
      ⟨some n, C ++ L.map (fun p => (p, normColumn n (getNumeric df p)))⟩ := by
  induction L generalizing C with
  | nil => simp
  | cons p L ih =>
    rw [List.foldl_cons]
    have hstep : stepPollutant df ⟨some n, C⟩ p =
        ⟨some n, C ++ [(p, normColumn n (getNumeric df p))]⟩ := by
      rw [normColumn]
      cases hM : colMax (getNumeric df p) with
      | none =>
        rw [stepPollutant_nonvary (by rw [varies, hM])]
        rw [setScalarZero]
        rfl
      | some M =>
        cases hm : colMin (getNumeric df p) with
        | none =>
          rw [stepPollutant_nonvary (by rw [varies, hM, hm])]
          rw [setScalarZero]
          simp [hM, hm]
        | some m =>
          by_cases hMm : M > m
          · rw [stepPollutant_vary hM hm hMm, setSeries]
            simp only [hM, hm, if_pos hMm]
            rw [alignTo_eq_self (by
              rw [length_normSeries]
              exact hlen p (List.mem_cons_self _ _))]
          · rw [stepPollutant_nonvary (by
              rw [varies, hM, hm]
              simp [hMm])]
            rw [setScalarZero]
            simp [hM, hm, hMm]
    rw [hstep, ih _ (fun r hr => hlen r (List.mem_cons_of_mem _ hr))]
    simp

theorem step_first_vary (df : Table) (p : String) (n : Nat)
    (C : List (String × List (Option ℚ)))
    (hv : varies (getNumeric df p) = true)
    (hlen : (getNumeric df p).length = n) (hpos : 0 < n) :
    stepPollutant df ⟨none, C⟩ p =
      ⟨some n, C.map (fun c => (c.1, List.replicate n (none : Option ℚ)))
        ++ [(p, normColumn n (getNumeric df p))]⟩ := by
  obtain ⟨M, m, hM, hm, hMm⟩ := varies_elim hv
  rw [stepPollutant_vary hM hm hMm, setSeries]
  simp only
  rw [if_pos (by rw [length_normSeries, hlen]; exact hpos)]
  rw [length_normSeries, hlen, normColumn]
  simp only [hM, hm, if_pos hMm]

/-- Unfolding of `calculate_aqi` in the success case. -/
theorem calculate_aqi_ok {df : Table} {dtc : Column}
    (hdt : getCol? df "DateTime" = some dtc)
    (hne : availablePollutants df ≠ []) :
    calculate_aqi df = .ok ⟨dtc.data,
      alignTo (colLength dtc.data) (frameRowMax (normalizedFrame df))⟩ := by
  rw [calculate_aqi]
  simp only [hdt]
  rw [if_neg (by
    intro hcontra
    exact hne (List.isEmpty_iff.mp hcontra))]

theorem exists_first_vary (df : Table) (L : List String) :
    (∀ p ∈ L, varies (getNumeric df p) = false) ∨
    ∃ A q B, L = A ++ q :: B ∧
      (∀ p ∈ A, varies (getNumeric df p) = false) ∧
      varies (getNumeric df q) = true := by
  induction L with
  | nil => exact Or.inl (by simp)
  | cons p L ih =>
    cases hv : varies (getNumeric df p) with
    | true => exact Or.inr ⟨[], p, L, rfl, by simp, hv⟩
    | false =>
      rcases ih with h | ⟨A, q, B, rfl, hA, hq⟩
      · refine Or.inl ?_
        intro r hr
        rcases List.mem_cons.mp hr with rfl | hr
        · exact hv
        · exact h r hr
      · refine Or.inr ⟨p :: A, q, B, rfl, ?_, hq⟩
        intro r hr
        rcases List.mem_cons.mp hr with rfl | hr
        · exact hv
        · exact hA r hr

/-- Characterization of the `normalized` frame when the available-pollutant
list splits as non-varying columns, a first varying column `q`, and a rest:
the leading non-varying columns were re-indexed to all-absent, `q` and the
varying part of the rest carry their normalized series, and the non-varying
part of the rest carries constant zeros. -/
theorem normalizedFrame_split (df : Table) {A : List String} {q : String}
    {B : List String} (hsplit : availablePollutants df = A ++ q :: B)
    (hA : ∀ p ∈ A, varies (getNumeric df p) = false)
    (hq : varies (getNumeric df q) = true) (n : Nat)
    (hlen : ∀ p ∈ availablePollutants df, (getNumeric df p).length = n) :
    normalizedFrame df = ⟨some n,
      A.map (fun p => (p, List.replicate n (none : Option ℚ)))
        ++ (q, normColumn n (getNumeric df q))
        :: B.map (fun p => (p, normColumn n (getNumeric df p)))⟩ := by
  have hqmem : q ∈ availablePollutants df := by
    rw [hsplit]
    exact List.mem_append_right _ (List.mem_cons_self _ _)
  have hposn : 0 < n := by
    have hxs := length_pos_of_varies hq
    rw [hlen q hqmem] at hxs
    exact hxs
  rw [normalizedFrame, hsplit, List.foldl_append, List.foldl_cons]
  have h1 : A.foldl (stepPollutant df) emptyFrame =
      ⟨none, A.map (fun p => (p, ([] : List (Option ℚ))))⟩ := by
    have := foldl_nonvary df A [] hA
    rw [List.nil_append] at this
    exact this
  rw [h1, step_first_vary df q n _ hq (hlen q hqmem) hposn]
  rw [foldl_established df B n _ (fun p hp => hlen p (by
    rw [hsplit]
    exact List.mem_append_right _ (List.mem_cons_of_mem _ hp)))]
  simp [List.map_map, Function.comp, List.append_assoc]

/-- C4: on a prepared table (`DateTime` column present, the present
candidate pollutant columns numeric), `calculate_aqi` fails with the
`ValueError` (the spec's `ConfigurationError`) exactly when none of the
four candidate pollutants is a column, and succeeds with a Composite Index
Table when at least one is present. -/
theorem aqi_error_iff_no_candidate (df : Table)
    (hdt : "DateTime" ∈ names df)
    (hnum : ∀ p ∈ availablePollutants df, isNumericCol df p = true) :
    ((∃ msg, calculate_aqi df = .error (.valueError msg)) ↔
      ∀ p ∈ key_pollutants, p ∉ names df) ∧
    ((∃ p ∈ key_pollutants, p ∈ names df) →
      ∃ r, calculate_aqi df = .ok r) := by
  obtain ⟨dtc, hdtc⟩ := getCol?_isSome_of_mem hdt
  constructor
  · constructor
    · rintro ⟨msg, herr⟩
      by_cases hav : availablePollutants df = []
      · rw [availablePollutants] at hav
        intro p hp hmem
        have := List.filter_eq_nil.mp hav p hp
        simp at this
        exact this hmem
      · rw [calculate_aqi_ok hdtc hav] at herr
        exact Except.noConfusion herr
    · intro hnone
      have hav : availablePollutants df = [] := by
        rw [availablePollutants]
        apply List.filter_eq_nil.mpr
        intro p hp
        simp
        exact hnone p hp
      refine ⟨"None of the key pollutants needed for AQI calculation are available in the dataset.", ?_⟩
      rw [calculate_aqi]
      simp only [hdtc]
      rw [if_pos (by rw [hav]; rfl)]
  · rintro ⟨p, hp, hmem⟩
    have hpav : p ∈ availablePollutants df := by
      rw [availablePollutants, List.mem_filter]
      exact ⟨hp, by simp [hmem]⟩
    exact ⟨_, calculate_aqi_ok hdtc (List.ne_nil_of_mem hpav)⟩

theorem aqi_error_iff_no_candidate_witness :
    ((∃ msg, calculate_aqi exVaryAqi = .error (.valueError msg)) ↔
      ∀ p ∈ key_pollutants, p ∉ names exVaryAqi) ∧
    ((∃ p ∈ key_pollutants, p ∈ names exVaryAqi) →
      ∃ r, calculate_aqi exVaryAqi = .ok r) :=
  aqi_error_iff_no_candidate exVaryAqi (by decide) (by decide)

/-- C2 (counterexample): on a table whose only available pollutant is the
constant column `CO(GT) = [5]`, the claim predicts the score `0` (the
normalized value of a zero-variance column) for row 0, and predicts that a
score can be absent only when every candidate is absent; the code instead
assigns the scalar `0` to an empty frame, so the `normalized` frame keeps
zero rows and the row's score is absent although `CO(GT)` is present. -/
theorem aqi_score_absent_for_constant_candidate :
    calculate_aqi exConstAqi =
      .ok ⟨ColData.datetime [some 0], [none]⟩ ∧
    (getNumeric exConstAqi "CO(GT)").get? 0 = some (some 5) := by
  constructor
  · with_unfolding_all rfl
  · rfl

/-- C2 (amended): on a prepared table (`DateTime` present, the available
candidate columns numeric of the table's row count) with at least one
candidate present, `calculate_aqi` succeeds with one score per row and
every present score lies in `[0, 100]`.  When no available candidate
varies (its max above its min), every row's score is absent (the
constant-zero columns land on the still-empty frame).  When every
available candidate varies, each row's score is the `NaN`-skipping
row-wise maximum of the min-max normalized candidate values, and a row's
score is absent exactly when every available candidate is absent at that
row. -/
theorem aqi_composite_index_amended (df : Table) (dtc : Column)
    (hdt : getCol? df "DateTime" = some dtc) (n : Nat)
    (hn : colLength dtc.data = n)
    (hlen : ∀ p ∈ availablePollutants df, (getNumeric df p).length = n)
    (hne : availablePollutants df ≠ []) :
    ∃ r : AqiResult, calculate_aqi df = .ok r ∧ r.aqi.length = n ∧
      (∀ v : ℚ, some v ∈ r.aqi → 0 ≤ v ∧ v ≤ 100) ∧
      ((∀ p ∈ availablePollutants df, varies (getNumeric df p) = false) →
        r.aqi = List.replicate n none) ∧
      ((∀ p ∈ availablePollutants df, varies (getNumeric df p) = true) →
        ∀ i, i < n →
          r.aqi.get? i = some
            (((availablePollutants df).map (fun p =>
              (((getNumeric df p).get? i).bind id).map (fun v =>
                100 * (v - (colMin (getNumeric df p)).getD 0) /
                  ((colMax (getNumeric df p)).getD 0 -
                    (colMin (getNumeric df p)).getD 0)))).foldl optMax2 none) ∧
          (r.aqi.get? i = some none ↔
            ∀ p ∈ availablePollutants df,
              ((getNumeric df p).get? i).bind id = none)) := by
  subst hn
  have hreplicate : (∀ p ∈ availablePollutants df,
      varies (getNumeric df p) = false) →
      alignTo (colLength dtc.data) (frameRowMax (normalizedFrame df)) =
        List.replicate (colLength dtc.data) none := by
    intro hall
    have hframe : normalizedFrame df = ⟨none, (availablePollutants df).map
        (fun p => (p, ([] : List (Option ℚ))))⟩ := by
      have := foldl_nonvary df (availablePollutants df) [] hall
      rw [List.nil_append] at this
      rw [normalizedFrame]
      exact this
    rw [hframe, frameRowMax]
    simp [alignTo]
  refine ⟨_, calculate_aqi_ok hdt hne, alignTo_length _ _, ?_, hreplicate, ?_⟩
  · intro v hv
    rcases exists_first_vary df (availablePollutants df) with
      hall | ⟨A, q, B, hsplit, hA, hq⟩
    · rw [hreplicate hall] at hv
      exact absurd (List.eq_of_mem_replicate hv) (by simp)
    · have hF := normalizedFrame_split df hsplit hA hq _ hlen
      have hlenF : (frameRowMax (normalizedFrame df)).length =
          colLength dtc.data := by
        rw [hF, frameRowMax]
        simp
      rw [alignTo_eq_self hlenF, hF, frameRowMax] at hv
      obtain ⟨i, _, hrm⟩ := List.mem_map.mp hv
      rw [rowMaxAt] at hrm
      refine foldl_optMax2_bounds (P := fun w => 0 ≤ w ∧ w ≤ 100)
        (fun a b ha hb => ⟨le_trans ha.1 (le_max_left a b), max_le ha.2 hb.2⟩)
        ?_ (fun w hw => Option.noConfusion hw) v hrm
      intro w hw
      obtain ⟨col, hcol, hcw⟩ := List.mem_map.mp hw
      have hwmem : some w ∈ col.2 := by
        cases hg : col.2.get? i with
        | none => rw [hg] at hcw; exact Option.noConfusion hcw
        | some o =>
          rw [hg] at hcw
          cases o with
          | none => exact Option.noConfusion hcw
          | some u =>
            have hcw2 : some u = some w := hcw
            obtain rfl := Option.some.inj hcw2
            exact List.get?_mem hg
      rcases List.mem_append.mp hcol with hcolA | hcolQB
      · obtain ⟨p, _, rfl⟩ := List.mem_map.mp hcolA
        exact absurd (List.eq_of_mem_replicate hwmem) (by simp)
      · rcases List.mem_cons.mp hcolQB with rfl | hcolB
        · have hwmem2 : some w ∈
              normColumn (colLength dtc.data) (getNumeric df q) := hwmem
          exact mem_normColumn_bounds hwmem2
        · obtain ⟨p, _, rfl⟩ := List.mem_map.mp hcolB
          have hwmem2 : some w ∈
              normColumn (colLength dtc.data) (getNumeric df p) := hwmem
          exact mem_normColumn_bounds hwmem2
  · intro hvary i hi
    cases havail : availablePollutants df with
    | nil => exact absurd havail hne
    | cons q B =>
      have hvary2 : ∀ p ∈ q :: B, varies (getNumeric df p) = true := by
        rw [← havail]
        exact hvary
      have hsplit : availablePollutants df = [] ++ q :: B := by
        rw [havail, List.nil_append]
      have hq : varies (getNumeric df q) = true :=
        hvary2 q (List.mem_cons_self _ _)
      have hF := normalizedFrame_split df hsplit (by simp) hq _ hlen
      rw [List.map_nil, List.nil_append] at hF
      have hlenF : (frameRowMax (normalizedFrame df)).length =
          colLength dtc.data := by
        rw [hF, frameRowMax]
        simp
      have hpoint : ∀ p ∈ q :: B,
          ((normColumn (colLength dtc.data) (getNumeric df p)).get? i).bind id =
          (((getNumeric df p).get? i).bind id).map (fun v =>
            100 * (v - (colMin (getNumeric df p)).getD 0) /
              ((colMax (getNumeric df p)).getD 0 -
                (colMin (getNumeric df p)).getD 0)) := by
        intro p hp
        obtain ⟨M, m, hM, hm, hMm⟩ := varies_elim (hvary2 p hp)
        simp only [normColumn, hM, hm, if_pos hMm, Option.getD_some,
          normSeries, List.get?_map]
        cases (getNumeric df p).get? i with
        | none => rfl
        | some o => cases o <;> rfl
      have hqi : (alignTo (colLength dtc.data)
          (frameRowMax (normalizedFrame df))).get? i = some
            (((q :: B).map (fun p =>
              (((getNumeric df p).get? i).bind id).map (fun v =>
                100 * (v - (colMin (getNumeric df p)).getD 0) /
                  ((colMax (getNumeric df p)).getD 0 -
                    (colMin (getNumeric df p)).getD 0)))).foldl
              optMax2 none) := by
        rw [alignTo_eq_self hlenF, hF, frameRowMax]
        simp only [Option.getD_some]
        rw [List.get?_map, List.get?_range hi]
        simp only [Option.map_some', Option.some.injEq]
        rw [rowMaxAt]
        simp only [List.map_cons, List.map_map]
        congr 1
        congr 1
        · exact hpoint q (List.mem_cons_self _ _)
        · apply List.map_congr_left
          intro p hp
          exact hpoint p (List.mem_cons_of_mem _ hp)
      refine ⟨hqi, ?_⟩
      rw [hqi]
      simp only [Option.some.injEq]
      rw [foldl_optMax2_eq_none]
      constructor
      · rintro ⟨_, h⟩ p hp
        have hmem := h _ (List.mem_map_of_mem _ hp)
        exact Option.map_eq_none'.mp hmem
      · intro h
        refine ⟨rfl, ?_⟩
        intro o ho
        obtain ⟨p, hp, rfl⟩ := List.mem_map.mp ho
        rw [h p hp]
        rfl

theorem aqi_composite_index_amended_witness :
    ∃ r : AqiResult, calculate_aqi exVaryAqi = .ok r ∧ r.aqi.length = 2 ∧
      (∀ v : ℚ, some v ∈ r.aqi → 0 ≤ v ∧ v ≤ 100) ∧
      ((∀ p ∈ availablePollutants exVaryAqi,
          varies (getNumeric exVaryAqi p) = false) →
        r.aqi = List.replicate 2 none) ∧
      ((∀ p ∈ availablePollutants exVaryAqi,
          varies (getNumeric exVaryAqi p) = true) →
        ∀ i, i < 2 →
          r.aqi.get? i = some
            (((availablePollutants exVaryAqi).map (fun p =>
              (((getNumeric exVaryAqi p).get? i).bind id).map (fun v =>
                100 * (v - (colMin (getNumeric exVaryAqi p)).getD 0) /
                  ((colMax (getNumeric exVaryAqi p)).getD 0 -
                    (colMin (getNumeric exVaryAqi p)).getD 0)))).foldl
              optMax2 none) ∧
          (r.aqi.get? i = some none ↔
            ∀ p ∈ availablePollutants exVaryAqi,
              ((getNumeric exVaryAqi p).get? i).bind id = none)) :=
  aqi_composite_index_amended exVaryAqi
    ⟨"DateTime", ColData.datetime [some 0, some 1]⟩ rfl 2 rfl
    (by with_unfolding_all decide) (by decide)

/-- C10 (counterexample): when the entirely absent candidate `CO(GT)`
precedes every varying candidate, its scalar-zero assignment lands on the
still-empty `normalized` frame; the later series assignment re-indexes the
column to all-absent, so it contributes nothing: with
`C6H6(GT) = [1, 2, absent]`, row 2's score is absent, where the claimed
constant-zero contribution would have made it `0`. -/
theorem all_absent_candidate_dropped_when_first :
    calculate_aqi exDropAqi =
      .ok ⟨ColData.datetime [some 0, some 1, some 2],
        [some 0, some 100, none]⟩ ∧
    (∀ x ∈ getNumeric exDropAqi "CO(GT)", x = none) ∧
    (normalizedFrame exDropAqi).cols =
      [("CO(GT)", [none, none, none]),
       ("C6H6(GT)", [some 0, some 100, none])] := by
  refine ⟨?_, ?_, ?_⟩
  · with_unfolding_all rfl
  · with_unfolding_all decide
  · with_unfolding_all rfl

/-- C10 (amended): an entirely absent candidate column is set to the
constant `0` only when the `normalized` frame's index is already
established, i.e. when a candidate earlier in the fixed candidate order
has max above min; in that case its normalized column is constant `0` and
every row's composite score is present. -/
theorem all_absent_candidate_zero_after_varying (df : Table) (dtc : Column)
    (hdt : getCol? df "DateTime" = some dtc) (n : Nat)
    (hn : colLength dtc.data = n)
    (hlen : ∀ p ∈ availablePollutants df, (getNumeric df p).length = n)
    (A : List String) (q : String) (B : List String)
    (hsplit : availablePollutants df = A ++ q :: B)
    (hA : ∀ p ∈ A, varies (getNumeric df p) = false)
    (hq : varies (getNumeric df q) = true)
    (p : String) (hpB : p ∈ B) (hall : ∀ x ∈ getNumeric df p, x = none) :
    ∃ r : AqiResult, calculate_aqi df = .ok r ∧
      (p, List.replicate n (some (0 : ℚ))) ∈ (normalizedFrame df).cols ∧
      ∀ i, i < n → ∃ v : ℚ, r.aqi.get? i = some (some v) := by
  subst hn
  have hne : availablePollutants df ≠ [] := by
    rw [hsplit]
    intro h
    have h2 := List.append_eq_nil.mp h
    exact List.noConfusion h2.2
  have hF := normalizedFrame_split df hsplit hA hq _ hlen
  have hnc : normColumn (colLength dtc.data) (getNumeric df p) =
      List.replicate (colLength dtc.data) (some (0 : ℚ)) := by
    have hfm : (getNumeric df p).filterMap id = [] := by
      apply List.filterMap_eq_nil.mpr
      intro a ha
      rw [hall a ha]
      rfl
    rw [normColumn, colMax, colMin, hfm]
  have hmem : (p, List.replicate (colLength dtc.data) (some (0 : ℚ))) ∈
      (normalizedFrame df).cols := by
    rw [hF]
    exact List.mem_append_right _ (List.mem_cons_of_mem _
      (List.mem_map.mpr ⟨p, hpB, by rw [hnc]⟩))
  refine ⟨_, calculate_aqi_ok hdt hne, hmem, ?_⟩
  intro i hi
  have hlenF : (frameRowMax (normalizedFrame df)).length =
      colLength dtc.data := by
    rw [hF, frameRowMax]
    simp
  have hsome : (rowMaxAt (normalizedFrame df) i).isSome := by
    rw [rowMaxAt]
    apply foldl_optMax2_isSome_of_mem (v := 0)
    apply List.mem_map.mpr
    refine ⟨(p, List.replicate (colLength dtc.data) (some (0 : ℚ))),
      hmem, ?_⟩
    have hget : (List.replicate (colLength dtc.data)
        (some (0 : ℚ))).get? i = some (some 0) := get?_replicate_of_lt hi
    rw [hget]
    rfl
  obtain ⟨v, hv⟩ := Option.isSome_iff_exists.mp hsome
  refine ⟨v, ?_⟩
  have hgoal : (alignTo (colLength dtc.data)
      (frameRowMax (normalizedFrame df))).get? i = some (some v) := by
    rw [alignTo_eq_self hlenF, frameRowMax]
    have hidx : (normalizedFrame df).idx.getD 0 = colLength dtc.data := by
      rw [hF]
      rfl
    rw [hidx, List.get?_map, List.get?_range hi, Option.map_some', hv]
  exact hgoal

theorem all_absent_candidate_zero_after_varying_witness :
    ∃ r : AqiResult, calculate_aqi exZeroAqi = .ok r ∧
      ("NOx(GT)", List.replicate 2 (some (0 : ℚ))) ∈
        (normalizedFrame exZeroAqi).cols ∧
      ∀ i, i < 2 → ∃ v : ℚ, r.aqi.get? i = some (some v) :=
  all_absent_candidate_zero_after_varying exZeroAqi
    ⟨"DateTime", ColData.datetime [some 0, some 1]⟩ rfl 2 rfl
    (by with_unfolding_all decide) [] "CO(GT)" ["NOx(GT)"]
    (by with_unfolding_all decide) (by simp)
    (by with_unfolding_all decide) "NOx(GT)" (by decide) (by decide)

end AirVision
